import Mathlib

/-!
Verification development for the Margen Pro VIII manifest analyzer
(`src/app.py`).  The two core components are embedded here:

* `clean_currency` (app.py lines 100-154): the value normalizer turning an
  arbitrary spreadsheet cell into a number, a residual string, or a missing
  marker;
* `load_data` (app.py lines 157-232): the manifest loader with fuzzy column
  resolution, per-row cleaning, per-file aggregation and error classification;
* the scenario arithmetic (app.py lines 290-294).

Modelling conventions:

* Python floats are modelled as exact rationals (`ℚ`); decimal strings such
  as "1234.56" denote the rational 123456/100 exactly.  The non-finite
  spellings accepted by Python `float` ("inf", "nan", unicode digits) are
  outside the model: the embedded grammar covers sign, ASCII digit parts
  with single underscores, a decimal point and an exponent part, which is
  the fragment exercised by currency data.
* Python byte strings are `List (Fin 256)`; `str` is Lean `String`.
* The pandas missing marker (`np.nan` / `pd.NA`) is the `missing` /
  `Missing` constructors.
* `pd.read_csv` / `pd.read_excel` are external library calls; their outcome
  (a parsed table or a raised exception message) is the `parsed` field of
  an `UploadedFile`.
-/

/-! ## Python string primitives -/

/-- Code points for which Python `str.isspace` holds; `str.strip()` with no
argument removes exactly these from both ends. -/
def pyWhitespaceCodes : List ℕ :=
  [9, 10, 11, 12, 13, 28, 29, 30, 31, 32, 133, 160, 5760,
   8192, 8193, 8194, 8195, 8196, 8197, 8198, 8199, 8200, 8201, 8202,
   8232, 8233, 8239, 8287, 12288]

def pyWhitespace (c : Char) : Bool := pyWhitespaceCodes.contains c.toNat

/-- Python `s.strip()` on the character list of `s`. -/
def stripList (l : List Char) : List Char :=
  ((l.dropWhile pyWhitespace).reverse.dropWhile pyWhitespace).reverse

/-- The characters removed by the loop at app.py line 135:
`['$', '€', '£', ',', '%', '\xa0']`. -/
def currencySyms : List Char := ['$', '€', '£', ',', '%', '\xA0']

/-- `s.replace(ch, '')` for each symbol, i.e. global removal (line 136). -/
def removeCurrency (l : List Char) : List Char :=
  l.filter (fun c => !(currencySyms.contains c))

/-- `s.replace('−', '-')`: normalize the unicode minus (line 139). -/
def replaceMinus (l : List Char) : List Char :=
  l.map (fun c => if c = '−' then '-' else c)

/-- `s.startswith('(') and s.endswith(')')` (line 130). -/
def parenNegL (l : List Char) : Bool :=
  decide (l.head? = some '(') && decide (l.getLast? = some ')')

/-! ## Python `float` literal grammar

`float(s)` accepts `sign? (digitpart (. digitpart?)? | . digitpart)
((e|E) sign? digitpart)?` where a digitpart is a nonempty ASCII digit run
with single underscores allowed between digits.  The parser below returns
the exact rational value.  It is split into a kernel-computable
representation (`FloatRep`) and its rational value. -/

def isDigitCh (c : Char) : Bool := decide (48 ≤ c.toNat) && decide (c.toNat ≤ 57)

def digVal (c : Char) : ℕ := c.toNat - 48

/-- Tail of a digitpart: digits with single underscores strictly between
digits.  Returns the digit values. -/
def udAux : List Char → Option (List ℕ)
  | [] => some []
  | c :: rest =>
    if isDigitCh c then (udAux rest).map (fun ds => digVal c :: ds)
    else if c = '_' then
      match rest with
      | [] => none
      | d :: _ => if isDigitCh d then udAux rest else none
    else none

/-- A full digitpart: nonempty, starts with a digit. -/
def udigits? : List Char → Option (List ℕ)
  | [] => none
  | c :: rest => if isDigitCh c then (udAux rest).map (fun ds => digVal c :: ds) else none

/-- Value of a big-endian digit list. -/
def digitsVal (ds : List ℕ) : ℕ := ds.foldl (fun a d => 10 * a + d) 0

/-- Split a character list at the first character satisfying `p`:
returns the part before and, when found, the part after. -/
def splitFirst (p : Char → Bool) : List Char → List Char × Option (List Char)
  | [] => ([], none)
  | c :: r =>
    if p c then ([], some r)
    else
      let q := splitFirst p r
      (c :: q.1, q.2)

/-- Mantissa shape: integer digit list and optional fraction digit list.
`"12.5"` gives `([1,2], some [5])`, `".5"` gives `([], some [5])`,
`"12."` and `"12"` give `([1,2], none)`. -/
def mantissaParts (l : List Char) : Option (List ℕ × Option (List ℕ)) :=
  match splitFirst (fun c => decide (c = '.')) l with
  | (ip, none) => (udigits? ip).map (fun ds => (ds, none))
  | (ip, some fp) =>
    match ip, fp with
    | [], [] => none
    | [], _ :: _ => (udigits? fp).map (fun ds => ([], some ds))
    | _ :: _, [] => (udigits? ip).map (fun ds => (ds, none))
    | _ :: _, _ :: _ =>
      match udigits? ip, udigits? fp with
      | some di, some df => some (di, some df)
      | _, _ => none

/-- Exponent part after `e`/`E`: optional sign then a digitpart.
The `Bool` is true for a negative exponent. -/
def expParts (l : List Char) : Option (Bool × List ℕ) :=
  match l with
  | '+' :: r => (udigits? r).map (fun ds => (false, ds))
  | '-' :: r => (udigits? r).map (fun ds => (true, ds))
  | r => (udigits? r).map (fun ds => (false, ds))

/-- Optional leading sign; the `Bool` is true for `-`. -/
def signSplit (l : List Char) : Bool × List Char :=
  match l with
  | [] => (false, [])
  | c :: r => if c = '+' then (false, r) else if c = '-' then (true, r) else (false, c :: r)

/-- Kernel-computable parse result of a Python float literal. -/
structure FloatRep where
  neg : Bool
  mant : List ℕ × Option (List ℕ)
  exp : Option (Bool × List ℕ)
deriving DecidableEq

def floatRep? (l : List Char) : Option FloatRep :=
  match splitFirst (fun c => decide (c = 'e') || decide (c = 'E')) (signSplit l).2 with
  | (m, none) => (mantissaParts m).map (fun mp => ⟨(signSplit l).1, mp, none⟩)
  | (m, some ex) =>
    match mantissaParts m, expParts ex with
    | some mp, some ep => some ⟨(signSplit l).1, mp, some ep⟩
    | _, _ => none

def mantissaVal : List ℕ × Option (List ℕ) → ℚ
  | (di, none) => (digitsVal di : ℚ)
  | (di, some df) => (digitsVal di : ℚ) + (digitsVal df : ℚ) / 10 ^ df.length

def expVal : Option (Bool × List ℕ) → ℤ
  | none => 0
  | some (s, ds) => if s then -(digitsVal ds : ℤ) else (digitsVal ds : ℤ)

def FloatRep.val (f : FloatRep) : ℚ :=
  (if f.neg then -1 else 1) * mantissaVal f.mant * (10 : ℚ) ^ expVal f.exp

/-- `float(s)` as an exact rational, `none` when `float` raises `ValueError`. -/
def parseFloatChars (l : List Char) : Option ℚ := (floatRep? l).map FloatRep.val

/-! ## Data model: `RawCell` and `NormalizedValue` (spec section 3) -/

inductive NormalizedValue where
  | Number (q : ℚ)
  | ResidualText (s : String)
  | Missing
deriving DecidableEq

inductive RawCell where
  | missing
  | bytes (bs : List (Fin 256))
  | str (s : String)
  | num (q : ℚ)
deriving DecidableEq

/-! ## Byte decoding (app.py lines 117-121) -/

def contOk (b : Fin 256) : Bool := decide (128 ≤ b.val) && decide (b.val < 192)

def contVal (b : Fin 256) : ℕ := b.val - 128

/-- Strict UTF-8 decoding (as Python `bytes.decode('utf-8')`): rejects
stray continuations, overlong forms, surrogates and code points above
U+10FFFF.  The fuel argument only drives termination; it is instantiated
with the length of the byte list. -/
def utf8DecodeFuel : ℕ → List (Fin 256) → Option (List Char)
  | _, [] => some []
  | 0, _ :: _ => none
  | fuel + 1, b :: rest =>
    let n := b.val
    if n < 128 then (utf8DecodeFuel fuel rest).map (fun cs => Char.ofNat n :: cs)
    else if n < 194 then none
    else if n < 224 then
      match rest with
      | c1 :: r =>
        if contOk c1 then
          (utf8DecodeFuel fuel r).map (fun cs => Char.ofNat ((n - 192) * 64 + contVal c1) :: cs)
        else none
      | [] => none
    else if n < 240 then
      match rest with
      | c1 :: c2 :: r =>
        let cp := (n - 224) * 4096 + contVal c1 * 64 + contVal c2
        if contOk c1 && contOk c2 && decide (2048 ≤ cp) &&
            !(decide (55296 ≤ cp) && decide (cp < 57344)) then
          (utf8DecodeFuel fuel r).map (fun cs => Char.ofNat cp :: cs)
        else none
      | _ => none
    else if n < 245 then
      match rest with
      | c1 :: c2 :: c3 :: r =>
        let cp := (n - 240) * 262144 + contVal c1 * 4096 + contVal c2 * 64 + contVal c3
        if contOk c1 && contOk c2 && contOk c3 && decide (65536 ≤ cp) &&
            decide (cp < 1114112) then
          (utf8DecodeFuel fuel r).map (fun cs => Char.ofNat cp :: cs)
        else none
      | _ => none
    else none

def utf8Decode? (bs : List (Fin 256)) : Option (List Char) :=
  utf8DecodeFuel bs.length bs

/-- Latin-1 decoding: every byte is a valid code point, so
`bytes.decode('latin1', errors='ignore')` never drops anything and never
fails (app.py line 121). -/
def latin1Chars (bs : List (Fin 256)) : List Char :=
  bs.map (fun b => Char.ofNat b.val)

/-- `x.decode('utf-8')` with the Latin-1 fallback of app.py lines 118-121. -/
def decodeBytes (bs : List (Fin 256)) : String :=
  match utf8Decode? bs with
  | some cs => String.mk cs
  | none => String.mk (latin1Chars bs)

/-! ## The normalizer `clean_currency` (app.py lines 100-154) -/

/-- `s = x.strip()` (line 125). -/
def strippedOf (x : String) : List Char := stripList x.data

/-- The parenthesized-negative flag (lines 129-132). -/
def negOf (x : String) : Bool := parenNegL (strippedOf x)

/-- The fully cleaned character list: paren stripping (line 132), currency
symbol removal (lines 135-136), unicode-minus normalization (line 139) and
the final strip (line 140). -/
def cleanedOf (x : String) : List Char :=
  stripList (replaceMinus (removeCurrency
    (if negOf x then stripList (((strippedOf x).drop 1).dropLast) else strippedOf x)))

/-- The string branch of `clean_currency` (app.py lines 124-151). -/
def clean_currency_str (x : String) : NormalizedValue :=
  if strippedOf x = [] then .Missing
  else if cleanedOf x = [] ∨ cleanedOf x = ['-', '-'] ∨ cleanedOf x = ['-'] then .Missing
  else
    match parseFloatChars (cleanedOf x) with
    | some v => .Number (if negOf x then -v else v)
    | none => .ResidualText (String.mk (cleanedOf x))

/-- `clean_currency` (app.py lines 100-154): missing markers stay missing
(lines 110-114), byte cells are decoded then treated as strings (lines
117-121), strings go through the cleaning pipeline (lines 124-151), and
numeric cells pass through unchanged (line 154). -/
def clean_currency : RawCell → NormalizedValue
  | .missing => .Missing
  | .bytes bs => clean_currency_str (decodeBytes bs)
  | .str s => clean_currency_str s
  | .num q => .Number q

/-! ## Substring matching (Python `needle in haystack`) -/

/-- Does `hay` start with `needle`? -/
def matchHere : List Char → List Char → Bool
  | [], _ => true
  | _ :: _, [] => false
  | n :: ns, h :: hs => n == h && matchHere ns hs

/-- Python `needle in hay` for strings: contiguous substring test. -/
def containsSub : List Char → List Char → Bool
  | [], n => n.isEmpty
  | h :: t, n => matchHere n (h :: t) || containsSub t n

/-- Python `c.lower()` (ASCII range, which covers the header names the
matcher is compared against). -/
def lowerStr (s : String) : String := String.mk (s.data.map Char.toLower)

/-- `needle in c.lower()` with `needle` already lowercase. -/
def pyIn (needle c : String) : Bool := containsSub (lowerStr c).data needle.data

/-! ## Fuzzy column resolution (app.py lines 175-188) -/

def hasQty (c : String) : Bool := pyIn "qty" c

def hasUnitRetail (c : String) : Bool := pyIn "unit retail" c

def hasRetail (c : String) : Bool := pyIn "retail" c

def hasExt (c : String) : Bool := pyIn "ext" c

def hasCost (c : String) : Bool := pyIn "cost" c

/-- `col_qty = next((c for c in df.columns if 'qty' in c.lower()), None)`
(line 177). -/
def colQty (hs : List String) : Option String := hs.find? hasQty

/-- Lines 178-180: prefer a name containing "unit retail", else one
containing "retail" but not "ext". -/
def colRetail (hs : List String) : Option String :=
  match hs.find? hasUnitRetail with
  | some c => some c
  | none => hs.find? (fun c => hasRetail c && !hasExt c)

/-- Lines 182-185: prefer a name containing "ext" and "retail", else one
containing "cost" and "ext". -/
def colCost (hs : List String) : Option String :=
  match hs.find? (fun c => hasExt c && hasRetail c) with
  | some c => some c
  | none => hs.find? (fun c => hasCost c && hasExt c)

/-- Line 188; computed by the source but never used downstream. -/
def colDesc (hs : List String) : Option String :=
  hs.find? (fun c => pyIn "desc" c || pyIn "item" c || pyIn "product" c)

/-! ## Manifest loader (app.py lines 157-232) -/

/-- A parsed tabular file: header row and data rows (cells are addressed
by the position of their column name in the header). -/
structure Table where
  headers : List String
  rows : List (List RawCell)
deriving DecidableEq

/-- `df.columns = [c.strip() for c in df.columns]` (line 172). -/
def stripHeaders (t : Table) : List String :=
  t.headers.map (fun c => String.mk (stripList c.data))

/-- `pd.to_numeric(df[col].apply(clean_currency), errors='coerce').fillna(0)`
per cell: a normalized number keeps its value; the missing marker and
residual text (which `to_numeric` fails to coerce, yielding NaN) fill to 0
(lines 198-200). -/
def coerceClean (x : RawCell) : ℚ :=
  match clean_currency x with
  | .Number q => q
  | .ResidualText _ => 0
  | .Missing => 0

/-- Cell of `row` in the column named `c` (first matching header). -/
def cellAt (hs : List String) (row : List RawCell) (c : String) : RawCell :=
  row.getD (hs.findIdx (fun h => h == c)) RawCell.missing

/-- One cleaned row: `Qty_Clean`, `Retail_Clean`, `Cost_Clean` and
`Total_Retail_Value = Qty_Clean * Retail_Clean` (lines 198-203). -/
structure CleanRow where
  qty : ℚ
  retail : ℚ
  cost : ℚ
  totalRetailValue : ℚ
deriving DecidableEq

def cleanRow (hs : List String) (cq cr cc : String) (row : List RawCell) : CleanRow :=
  let q := coerceClean (cellAt hs row cq)
  let r := coerceClean (cellAt hs row cr)
  let c := coerceClean (cellAt hs row cc)
  ⟨q, r, c, q * r⟩

/-- One summary record per file (lines 212-221); `raw_data` holds the
cleaned columns added to the frame on the OK path. -/
structure ManifestSummary where
  filename : String
  status : String
  details : String
  items : ℚ
  variety : ℕ
  total_cost : ℚ
  total_retail : ℚ
  raw_data : List CleanRow
deriving DecidableEq

/-- Python `repr` of a string as it appears inside `list(df.columns)`
formatting (quote choice for printable names without escapes). -/
def pyReprStr (s : String) : String :=
  if s.data.contains '\x27' && !(s.data.contains '"') then "\"" ++ s ++ "\""
  else "\x27" ++ s ++ "\x27"

/-- Python `str(list_of_names)` used in the ERROR details (line 195). -/
def pyReprList (hs : List String) : String :=
  "[" ++ String.intercalate ", " (hs.map pyReprStr) ++ "]"

/-- `f"Missing Columns. Found: {list(df.columns)}"` (line 195). -/
def missingColsDetails (hs : List String) : String :=
  "Missing Columns. Found: " ++ pyReprList hs

/-- The per-file body of `load_data` after a successful parse (app.py
lines 171-221): strip headers, resolve columns, and either clean and
aggregate (status OK) or report the missing columns (status ERROR). -/
def load_file (name : String) (t : Table) : ManifestSummary :=
  let hs := stripHeaders t
  match colQty hs, colRetail hs, colCost hs with
  | some cq, some cr, some cc =>
    let cleaned := t.rows.map (cleanRow hs cq cr cc)
    { filename := name
      status := "OK"
      details := ""
      items := (cleaned.map (fun r => r.qty)).sum
      variety := (cleaned.filter (fun r => 0 < r.qty)).length
      total_cost := (cleaned.map (fun r => r.cost)).sum
      total_retail := (cleaned.map (fun r => r.totalRetailValue)).sum
      raw_data := cleaned }
  | _, _, _ =>
    { filename := name
      status := "ERROR"
      details := missingColsDetails hs
      items := 0
      variety := 0
      total_cost := 0
      total_retail := 0
      raw_data := [] }

/-- An uploaded file: its name and the outcome of the pandas read
(`pd.read_csv` with the utf-8-sig/latin1 fallback, or `pd.read_excel`),
either a parsed table or the message of a raised exception. -/
structure UploadedFile where
  name : String
  parsed : Except String Table

/-- One iteration of the loop in `load_data`: a parse exception is caught
and produces the CRITICAL ERROR record of app.py lines 224-230. -/
def processFile (f : UploadedFile) : ManifestSummary :=
  match f.parsed with
  | .ok t => load_file f.name t
  | .error e =>
    { filename := f.name
      status := "CRITICAL ERROR"
      details := e
      items := 0
      variety := 0
      total_cost := 0
      total_retail := 0
      raw_data := [] }

/-- `load_data` (app.py lines 157-232): process each file independently,
appending one summary per file in input order. -/
def load_data : List UploadedFile → List ManifestSummary
  | [] => []
  | f :: fs => processFile f :: load_data fs

/-! ## Scenario arithmetic (app.py lines 290-294) -/

/-- `projected_revenue = total_retail_value * (discount_scenario / 100.0)`
(line 291). -/
def projectedRevenue (totalRetail discount : ℚ) : ℚ :=
  totalRetail * (discount / 100)

/-- `total_expenses = total_purchase_cost + total_freight + total_misc`
(line 292), with the freight and misc overhead taken together. -/
def totalExpenses (totalCost overhead : ℚ) : ℚ :=
  totalCost + overhead

/-- `projected_profit = projected_revenue - total_expenses` (line 293). -/
def projectedProfit (totalRetail totalCost overhead discount : ℚ) : ℚ :=
  projectedRevenue totalRetail discount - totalExpenses totalCost overhead

/-- `roi = (projected_profit / total_expenses) * 100 if total_expenses > 0
else 0` (line 294). -/
def roiPct (totalRetail totalCost overhead discount : ℚ) : ℚ :=
  if 0 < totalExpenses totalCost overhead then
    projectedProfit totalRetail totalCost overhead discount / totalExpenses totalCost overhead * 100
  else 0

/-! ## First-match predicate used to state column resolution -/

/-- `c` is the first element of `l` satisfying `p`. -/
def IsFirstMatch {α : Type} (p : α → Bool) (l : List α) (c : α) : Prop :=
  p c = true ∧ ∃ pre post, l = pre ++ c :: post ∧ ∀ d ∈ pre, p d = false

/-! ## Decimal rendering (the embedding's analogue of `str(v)` for a
float value `v = z / 10^k`; every Python float is such a dyadic, hence
decimal, rational) -/

def digitChar (d : ℕ) : Char := Char.ofNat (48 + d)

/-- Big-endian decimal digits of `n` as characters (empty for 0). -/
def natToChars (n : ℕ) : List Char := (Nat.digits 10 n).reverse.map digitChar

def renderNat (n : ℕ) : List Char := if n = 0 then ['0'] else natToChars n

/-- `r` as exactly `k` digits, left-padded with zeros. -/
def padDigits (k r : ℕ) : List Char :=
  List.replicate (k - (natToChars r).length) '0' ++ natToChars r

/-- The unsigned decimal rendering of `m / 10^k`. -/
def renderBody (m k : ℕ) : List Char :=
  if k = 0 then renderNat m else renderNat (m / 10 ^ k) ++ '.' :: padDigits k (m % 10 ^ k)

/-- Decimal rendering of `v` with `k` fractional digits (meaningful when
`v * 10^k` is an integer). -/
def renderDec (v : ℚ) (k : ℕ) : String :=
  String.mk (if v < 0 then '-' :: renderBody (v * 10 ^ k).num.natAbs k
             else renderBody (v * 10 ^ k).num.natAbs k)

/-- The characters a decimal rendering can contain. -/
def goodChars : List Char :=
  ['0', '1', '2', '3', '4', '5', '6', '7', '8', '9', '-', '.']

/-! ## Example table (spec section 8 end-to-end example) -/

/-- The end-to-end example file of spec section 8: header
`Qty,Unit Retail,Ext. Retail` with rows `(10, "$5.00", "$2.00")` and
`(5, "$10.00", "$4.00")` as parsed by the CSV reader (quantities arrive
numeric, currency columns as text). -/
def exampleManifest : Table :=
  { headers := ["Qty", "Unit Retail", "Ext. Retail"]
    rows := [[.num 10, .str "$5.00", .str "$2.00"],
             [.num 5, .str "$10.00", .str "$4.00"]] }

/-! ## Evaluation lemmas for the string branch of the normalizer -/

lemma cc_str_number (x : String) (f : FloatRep)
    (h1 : ¬ strippedOf x = [])
    (h2 : ¬ (cleanedOf x = [] ∨ cleanedOf x = ['-', '-'] ∨ cleanedOf x = ['-']))
    (h3 : floatRep? (cleanedOf x) = some f) :
    clean_currency_str x = .Number (if negOf x then -f.val else f.val) := by
  unfold clean_currency_str
  rw [if_neg h1, if_neg h2]
  simp only [parseFloatChars, h3, Option.map_some']

lemma cc_str_residual (x : String)
    (h1 : ¬ strippedOf x = [])
    (h2 : ¬ (cleanedOf x = [] ∨ cleanedOf x = ['-', '-'] ∨ cleanedOf x = ['-']))
    (h3 : floatRep? (cleanedOf x) = none) :
    clean_currency_str x = .ResidualText (String.mk (cleanedOf x)) := by
  unfold clean_currency_str
  rw [if_neg h1, if_neg h2]
  simp only [parseFloatChars, h3, Option.map_none']

lemma cc_str_missing_blank (x : String) (h1 : strippedOf x = []) :
    clean_currency_str x = .Missing := by
  unfold clean_currency_str
  rw [if_pos h1]

lemma cc_str_missing_bad (x : String)
    (h2 : cleanedOf x = [] ∨ cleanedOf x = ['-', '-'] ∨ cleanedOf x = ['-']) :
    clean_currency_str x = .Missing := by
  unfold clean_currency_str
  by_cases h1 : strippedOf x = []
  · rw [if_pos h1]
  · rw [if_neg h1, if_pos h2]

/-! ## Claim C3 -/

/-- C3: `normalize("$1,234.56") = Number(1234.56)` and
`normalize("(1,234.56)") = Number(-1234.56)`: the parens of a fully
wrapped string are stripped, symbols and grouping commas removed
globally, and the parsed value negated. -/
theorem normalize_currency_paren_examples :
    clean_currency (.str "$1,234.56") = .Number (123456 / 100)
    ∧ clean_currency (.str "(1,234.56)") = .Number (-(123456 / 100)) := by
  constructor
  · have h3 : floatRep? (cleanedOf "$1,234.56") =
        some ⟨false, ([1, 2, 3, 4], some [5, 6]), none⟩ := by decide
    have h := cc_str_number "$1,234.56" _ (by decide) (by decide) h3
    have hneg : negOf "$1,234.56" = false := by decide
    rw [hneg] at h
    simp only [clean_currency, h, if_false]
    norm_num [FloatRep.val, mantissaVal, digitsVal, expVal]
  · have h3 : floatRep? (cleanedOf "(1,234.56)") =
        some ⟨false, ([1, 2, 3, 4], some [5, 6]), none⟩ := by decide
    have h := cc_str_number "(1,234.56)" _ (by decide) (by decide) h3
    have hneg : negOf "(1,234.56)" = true := by decide
    rw [hneg] at h
    simp only [clean_currency, h, if_true]
    norm_num [FloatRep.val, mantissaVal, digitsVal, expVal]

/-! ## Claim C2 -/

/-- C2 counterexample: `normalize("1.234,56")` is `Number(1.23456)` — the
grouping commas are stripped before float parsing, so the result is not
`ResidualText` of the cleaned string and not `Missing`, refuting the claim
at this input. -/
theorem normalize_comma_decimal_counterexample :
    clean_currency (.str "1.234,56") = .Number (123456 / 100000)
    ∧ clean_currency (.str "1.234,56") ≠ .Missing
    ∧ clean_currency (.str "1.234,56") ≠ .ResidualText (String.mk (cleanedOf "1.234,56")) := by
  have h3 : floatRep? (cleanedOf "1.234,56") =
      some ⟨false, ([1], some [2, 3, 4, 5, 6]), none⟩ := by decide
  have h := cc_str_number "1.234,56" _ (by decide) (by decide) h3
  have hneg : negOf "1.234,56" = false := by decide
  rw [hneg] at h
  have hval : clean_currency (.str "1.234,56") = .Number (123456 / 100000) := by
    simp only [clean_currency, h, if_false]
    norm_num [FloatRep.val, mantissaVal, digitsVal, expVal]
  refine ⟨hval, ?_, ?_⟩ <;> rw [hval] <;> simp

/-- C2 amended: for any text input the normalizer is total; whenever the
cleaned string fails Python float parsing the result is
`ResidualText(cleaned)` or `Missing` (inputs whose cleaned form parses,
such as "1.234,56", return `Number` instead). -/
theorem normalize_unparsable_residual_or_missing (x : String)
    (h : parseFloatChars (cleanedOf x) = none) :
    clean_currency (.str x) = .ResidualText (String.mk (cleanedOf x))
    ∨ clean_currency (.str x) = .Missing := by
  have hrep : floatRep? (cleanedOf x) = none := by
    cases hr : floatRep? (cleanedOf x) with
    | none => rfl
    | some f => rw [parseFloatChars, hr, Option.map_some'] at h; cases h
  by_cases h1 : strippedOf x = []
  · exact Or.inr (by simp [clean_currency, cc_str_missing_blank x h1])
  · by_cases h2 : cleanedOf x = [] ∨ cleanedOf x = ['-', '-'] ∨ cleanedOf x = ['-']
    · exact Or.inr (by simp [clean_currency, cc_str_missing_bad x h2])
    · exact Or.inl (by simp [clean_currency, cc_str_residual x h1 h2 hrep])

theorem normalize_unparsable_residual_or_missing_witness :
    parseFloatChars (cleanedOf "abc") = none
    ∧ (clean_currency (.str "abc") = .ResidualText (String.mk (cleanedOf "abc"))
        ∨ clean_currency (.str "abc") = .Missing) :=
  ⟨by decide, normalize_unparsable_residual_or_missing "abc" (by decide)⟩

/-! ## Claim C10 -/

/-- C10: a parenthesized string negates the parsed value of its cleaned
interior, so `normalize("(-5)") = Number(5.0)`: two negations cancel
rather than producing a negative magnitude. -/
theorem paren_negates_parsed_value :
    clean_currency (.str "(-5)") = .Number 5
    ∧ ∀ (x : String) (v : ℚ), strippedOf x ≠ [] → negOf x = true →
        parseFloatChars (cleanedOf x) = some v → clean_currency (.str x) = .Number (-v) := by
  have general : ∀ (x : String) (v : ℚ), strippedOf x ≠ [] → negOf x = true →
      parseFloatChars (cleanedOf x) = some v → clean_currency (.str x) = .Number (-v) := by
    intro x v h1 hneg hp
    obtain ⟨f, hf, hfv⟩ : ∃ f, floatRep? (cleanedOf x) = some f ∧ f.val = v := by
      cases hr : floatRep? (cleanedOf x) with
      | none => rw [parseFloatChars, hr, Option.map_none'] at hp; cases hp
      | some f =>
        rw [parseFloatChars, hr, Option.map_some'] at hp
        exact ⟨f, rfl, Option.some.injEq _ _ ▸ hp⟩
    have hb1 : floatRep? [] = none := by decide
    have hb2 : floatRep? ['-', '-'] = none := by decide
    have hb3 : floatRep? ['-'] = none := by decide
    have h2 : ¬ (cleanedOf x = [] ∨ cleanedOf x = ['-', '-'] ∨ cleanedOf x = ['-']) := by
      intro h2
      rcases h2 with h2 | h2 | h2 <;> rw [h2] at hf <;>
        simp only [hb1, hb2, hb3] at hf <;> exact Option.noConfusion hf
    have h := cc_str_number x f h1 h2 hf
    rw [hneg] at h
    simp only [clean_currency, h, if_true, hfv]
  refine ⟨?_, general⟩
  have hp : parseFloatChars (cleanedOf "(-5)") =
      some (FloatRep.val ⟨true, ([5], none), none⟩) := by
    have h3 : floatRep? (cleanedOf "(-5)") = some ⟨true, ([5], none), none⟩ := by decide
    rw [parseFloatChars, h3, Option.map_some']
  have h := general "(-5)" _ (by decide) (by decide) hp
  rw [h]
  norm_num [FloatRep.val, mantissaVal, digitsVal, expVal]

theorem paren_negates_parsed_value_witness :
    strippedOf "(-5)" ≠ [] ∧ negOf "(-5)" = true
    ∧ parseFloatChars (cleanedOf "(-5)") = some (-5)
    ∧ clean_currency (.str "(-5)") = .Number (-(-5)) := by
  have hp : parseFloatChars (cleanedOf "(-5)") = some (-5) := by
    have h3 : floatRep? (cleanedOf "(-5)") = some ⟨true, ([5], none), none⟩ := by decide
    rw [parseFloatChars, h3, Option.map_some']
    norm_num [FloatRep.val, mantissaVal, digitsVal, expVal]
  exact ⟨by decide, by decide, hp,
    paren_negates_parsed_value.2 "(-5)" (-5) (by decide) (by decide) hp⟩

/-! ## Claim C4 -/

/-- C4: the normalizer is total over the closed `RawCell` variant — every
cell yields `Missing`, a `Number`, or `ResidualText` — and a byte cell
whose UTF-8 decoding fails is decoded as Latin-1 (under which every byte
is valid, so `errors='ignore'` drops nothing) and then normalized as a
string. -/
theorem clean_currency_total_and_latin1_fallback :
    (∀ x : RawCell, clean_currency x = .Missing
      ∨ (∃ q, clean_currency x = .Number q)
      ∨ (∃ s, clean_currency x = .ResidualText s))
    ∧ ∀ bs : List (Fin 256), utf8Decode? bs = none →
        clean_currency (.bytes bs) = clean_currency_str (String.mk (latin1Chars bs)) := by
  constructor
  · intro x
    cases h : clean_currency x with
    | Number q => exact Or.inr (Or.inl ⟨q, rfl⟩)
    | ResidualText s => exact Or.inr (Or.inr ⟨s, rfl⟩)
    | Missing => exact Or.inl rfl
  · intro bs h
    simp [clean_currency, decodeBytes, h]

theorem clean_currency_latin1_fallback_witness :
    utf8Decode? [(255 : Fin 256)] = none
    ∧ clean_currency (.bytes [(255 : Fin 256)])
        = clean_currency_str (String.mk (latin1Chars [(255 : Fin 256)])) :=
  ⟨by decide, clean_currency_total_and_latin1_fallback.2 [(255 : Fin 256)] (by decide)⟩

/-! ## Claim C9 -/

/-- C9: the scenario metrics satisfy `revenue = totalRetail * P/100`,
`expenses = totalCost + overhead`, `profit = revenue - expenses`, and
`ROI% = profit/expenses * 100` guarded by `expenses > 0`, which maps both
zero and negative expenses to 0. -/
theorem scenario_metrics_formulas (tr tc oh d : ℚ) :
    projectedRevenue tr d = tr * (d / 100)
    ∧ totalExpenses tc oh = tc + oh
    ∧ projectedProfit tr tc oh d = projectedRevenue tr d - totalExpenses tc oh
    ∧ (0 < totalExpenses tc oh →
        roiPct tr tc oh d = projectedProfit tr tc oh d / totalExpenses tc oh * 100)
    ∧ (totalExpenses tc oh = 0 → roiPct tr tc oh d = 0)
    ∧ (totalExpenses tc oh < 0 → roiPct tr tc oh d = 0) := by
  refine ⟨rfl, rfl, rfl, ?_, ?_, ?_⟩
  · intro h
    rw [roiPct, if_pos h]
  · intro h
    rw [roiPct, if_neg (by rw [h]; exact lt_irrefl 0)]
  · intro h
    rw [roiPct, if_neg (not_lt_of_gt h)]

/-- Spec section 8 scenario example: totalRetail=100, totalCost=40,
P=35, overhead=0 gives revenue 35, expenses 40, profit -5, ROI -12.5%. -/
theorem scenario_metrics_formulas_witness :
    (0 : ℚ) < totalExpenses 40 0
    ∧ roiPct 100 40 0 35 = projectedProfit 100 40 0 35 / totalExpenses 40 0 * 100
    ∧ roiPct 100 40 0 35 = -25 / 2 := by
  have hpos : (0 : ℚ) < totalExpenses 40 0 := by norm_num [totalExpenses]
  have h := (scenario_metrics_formulas 100 40 0 35).2.2.2.1 hpos
  refine ⟨hpos, h, ?_⟩
  rw [h]
  norm_num [projectedProfit, projectedRevenue, totalExpenses]

/-! ## Claim C7 -/

/-- C7: whenever any of the quantity/retail/cost columns is unresolved on
the stripped headers, the summary is ERROR with the column listing in the
details, zero aggregates and an empty cleaned table. -/
theorem unresolved_columns_give_error (name : String) (t : Table)
    (h : colQty (stripHeaders t) = none ∨ colRetail (stripHeaders t) = none
        ∨ colCost (stripHeaders t) = none) :
    load_file name t =
      { filename := name
        status := "ERROR"
        details := missingColsDetails (stripHeaders t)
        items := 0
        variety := 0
        total_cost := 0
        total_retail := 0
        raw_data := [] } := by
  simp only [load_file]
  split
  · rename_i cq cr cc hq hr hc
    exfalso
    rcases h with h | h | h
    · rw [hq] at h; exact Option.noConfusion h
    · rw [hr] at h; exact Option.noConfusion h
    · rw [hc] at h; exact Option.noConfusion h
  · rfl

theorem unresolved_columns_give_error_witness :
    (colQty (stripHeaders ⟨["Name", "Price"], []⟩) = none
      ∨ colRetail (stripHeaders ⟨["Name", "Price"], []⟩) = none
      ∨ colCost (stripHeaders ⟨["Name", "Price"], []⟩) = none)
    ∧ load_file "bad.csv" ⟨["Name", "Price"], []⟩ =
      { filename := "bad.csv"
        status := "ERROR"
        details := missingColsDetails (stripHeaders ⟨["Name", "Price"], []⟩)
        items := 0
        variety := 0
        total_cost := 0
        total_retail := 0
        raw_data := [] } :=
  ⟨Or.inl (by decide),
    unresolved_columns_give_error "bad.csv" ⟨["Name", "Price"], []⟩ (Or.inl (by decide))⟩

/-! ## Claim C8 -/

/-- C8: the batch loader returns one summary per input file in input
order; position `i` of the output is the processed file at position `i`
of the input, and a file whose parse raised is reported as CRITICAL ERROR
carrying the exception message with zero aggregates, without affecting
the other positions. -/
theorem load_data_order_and_isolation (files : List UploadedFile) (i : ℕ) :
    (load_data files).length = files.length
    ∧ (load_data files)[i]? = (files[i]?).map processFile
    ∧ ∀ name msg, files[i]? = some ⟨name, .error msg⟩ →
        (load_data files)[i]? =
          some { filename := name
                 status := "CRITICAL ERROR"
                 details := msg
                 items := 0
                 variety := 0
                 total_cost := 0
                 total_retail := 0
                 raw_data := [] } := by
  have hlen : ∀ fs : List UploadedFile, (load_data fs).length = fs.length := by
    intro fs
    induction fs with
    | nil => rfl
    | cons f fs ih => simp [load_data, ih]
  have hget : ∀ (fs : List UploadedFile) (j : ℕ),
      (load_data fs)[j]? = (fs[j]?).map processFile := by
    intro fs
    induction fs with
    | nil => intro j; simp [load_data]
    | cons f fs ih =>
      intro j
      cases j with
      | zero => simp [load_data]
      | succ j => simpa [load_data] using ih j
  refine ⟨hlen files, hget files i, ?_⟩
  intro name msg h
  rw [hget files i, h]
  rfl

theorem load_data_order_and_isolation_witness :
    [UploadedFile.mk "a.csv" (.ok ⟨["Qty"], []⟩), UploadedFile.mk "b.csv" (.error "boom")][1]?
      = some ⟨"b.csv", .error "boom"⟩
    ∧ (load_data [UploadedFile.mk "a.csv" (.ok ⟨["Qty"], []⟩),
        UploadedFile.mk "b.csv" (.error "boom")])[1]? =
      some { filename := "b.csv"
             status := "CRITICAL ERROR"
             details := "boom"
             items := 0
             variety := 0
             total_cost := 0
             total_retail := 0
             raw_data := [] } :=
  ⟨rfl,
    (load_data_order_and_isolation
      [UploadedFile.mk "a.csv" (.ok ⟨["Qty"], []⟩), UploadedFile.mk "b.csv" (.error "boom")]
      1).2.2 "b.csv" "boom" rfl⟩

/-! ## Claim C6 -/

lemma find?_first_iff {α : Type} (p : α → Bool) (l : List α) (c : α) :
    l.find? p = some c ↔ IsFirstMatch p l c := by
  induction l with
  | nil => simp [IsFirstMatch]
  | cons h t ih =>
    by_cases hp : p h
    · rw [List.find?_cons_of_pos _ hp]
      constructor
      · intro heq
        injection heq with heq
        subst heq
        exact ⟨hp, [], t, rfl, by simp⟩
      · rintro ⟨hc, pre, post, heq, hpre⟩
        cases pre with
        | nil =>
          injection heq with h1 h2
          rw [h1]
        | cons d pre =>
          injection heq with h1 h2
          exact absurd hp (by rw [h1]; simp [hpre d (List.mem_cons_self d pre)])
    · rw [List.find?_cons_of_neg _ hp, ih]
      constructor
      · rintro ⟨hc, pre, post, heq, hpre⟩
        refine ⟨hc, h :: pre, post, by rw [heq]; rfl, ?_⟩
        intro d hd
        rcases List.mem_cons.mp hd with rfl | hd
        · exact eq_false_of_ne_true hp
        · exact hpre d hd
      · rintro ⟨hc, pre, post, heq, hpre⟩
        cases pre with
        | nil =>
          injection heq with h1 h2
          exact absurd (h1 ▸ hc) (by simpa using hp)
        | cons d pre =>
          injection heq with h1 h2
          exact ⟨hc, pre, post, h2, fun e he => hpre e (List.mem_cons_of_mem d he)⟩

/-- C6: column resolution is case-insensitive substring matching, first
match winning in column order, with the exact precedence of app.py lines
177-185: quantity is the first name containing "qty"; retail prefers the
first name containing "unit retail", else the first containing "retail"
but not "ext"; cost prefers the first name containing both "ext" and
"retail", else the first containing both "cost" and "ext". -/
theorem column_resolution_first_match (hs : List String) (c : String) :
    (colQty hs = some c ↔ IsFirstMatch hasQty hs c)
    ∧ (colRetail hs = some c ↔
        (IsFirstMatch hasUnitRetail hs c
          ∨ ((∀ d ∈ hs, hasUnitRetail d = false)
              ∧ IsFirstMatch (fun x => hasRetail x && !hasExt x) hs c)))
    ∧ (colCost hs = some c ↔
        (IsFirstMatch (fun x => hasExt x && hasRetail x) hs c
          ∨ ((∀ d ∈ hs, (hasExt d && hasRetail d) = false)
              ∧ IsFirstMatch (fun x => hasCost x && hasExt x) hs c))) := by
  refine ⟨find?_first_iff _ _ _, ?_, ?_⟩
  · unfold colRetail
    cases hu : hs.find? hasUnitRetail with
    | some u =>
      constructor
      · intro heq
        injection heq with heq
        subst heq
        exact Or.inl ((find?_first_iff _ _ _).mp hu)
      · rintro (hfm | ⟨hall, _⟩)
        · rw [← (find?_first_iff _ _ _).mpr hfm, hu]
        · exact absurd (List.find?_some hu)
            (by simp [hall u (List.mem_of_find?_eq_some hu)])
    | none =>
      rw [find?_first_iff]
      constructor
      · intro hfm
        exact Or.inr ⟨fun d hd => eq_false_of_ne_true (List.find?_eq_none.mp hu d hd), hfm⟩
      · rintro (hfm | ⟨_, hfm⟩)
        · have hsome := (find?_first_iff _ _ _).mpr hfm
          rw [hu] at hsome
          exact Option.noConfusion hsome
        · exact hfm
  · unfold colCost
    cases hu : hs.find? (fun x => hasExt x && hasRetail x) with
    | some u =>
      constructor
      · intro heq
        injection heq with heq
        subst heq
        exact Or.inl ((find?_first_iff _ _ _).mp hu)
      · rintro (hfm | ⟨hall, _⟩)
        · rw [← (find?_first_iff _ _ _).mpr hfm, hu]
        · exact absurd (List.find?_some hu)
            (by simp [hall u (List.mem_of_find?_eq_some hu)])
    | none =>
      rw [find?_first_iff]
      constructor
      · intro hfm
        exact Or.inr ⟨fun d hd => eq_false_of_ne_true (List.find?_eq_none.mp hu d hd), hfm⟩
      · rintro (hfm | ⟨_, hfm⟩)
        · have hsome := (find?_first_iff _ _ _).mpr hfm
          rw [hu] at hsome
          exact Option.noConfusion hsome
        · exact hfm

/-- Precedence witness: with headers `["Ext Cost", "Ext. Retail"]` the
cost column resolves to "Ext. Retail" (the ext+retail rule beats the
earlier cost+ext name). -/
theorem column_resolution_first_match_witness :
    colCost ["Ext Cost", "Ext. Retail"] = some "Ext. Retail"
    ∧ (IsFirstMatch (fun x => hasExt x && hasRetail x)
          ["Ext Cost", "Ext. Retail"] "Ext. Retail"
        ∨ ((∀ d ∈ ["Ext Cost", "Ext. Retail"], (hasExt d && hasRetail d) = false)
            ∧ IsFirstMatch (fun x => hasCost x && hasExt x)
                ["Ext Cost", "Ext. Retail"] "Ext. Retail")) :=
  ⟨by decide,
    (column_resolution_first_match ["Ext Cost", "Ext. Retail"] "Ext. Retail").2.2.mp
      (by decide)⟩

/-! ## Claim C1 -/

lemma coerce_str_eval (x : String) (f : FloatRep) (q : ℚ)
    (h1 : ¬ strippedOf x = [])
    (h2 : ¬ (cleanedOf x = [] ∨ cleanedOf x = ['-', '-'] ∨ cleanedOf x = ['-']))
    (h3 : floatRep? (cleanedOf x) = some f)
    (hneg : negOf x = false)
    (hv : f.val = q) :
    coerceClean (.str x) = q := by
  have h := cc_str_number x f h1 h2 h3
  rw [hneg] at h
  simp only [coerceClean, clean_currency, h, if_false, hv]
  simp

lemma coerce_num_eval (q : ℚ) : coerceClean (.num q) = q := rfl

lemma load_file_ok (name : String) (t : Table) (cq cr cc : String)
    (hq : colQty (stripHeaders t) = some cq)
    (hr : colRetail (stripHeaders t) = some cr)
    (hc : colCost (stripHeaders t) = some cc) :
    load_file name t =
      { filename := name
        status := "OK"
        details := ""
        items := ((t.rows.map (cleanRow (stripHeaders t) cq cr cc)).map
          (fun r => r.qty)).sum
        variety := ((t.rows.map (cleanRow (stripHeaders t) cq cr cc)).filter
          (fun r => 0 < r.qty)).length
        total_cost := ((t.rows.map (cleanRow (stripHeaders t) cq cr cc)).map
          (fun r => r.cost)).sum
        total_retail := ((t.rows.map (cleanRow (stripHeaders t) cq cr cc)).map
          (fun r => r.totalRetailValue)).sum
        raw_data := t.rows.map (cleanRow (stripHeaders t) cq cr cc) } := by
  simp only [load_file, hq, hr, hc]

lemma example_row1_eval :
    cleanRow (stripHeaders exampleManifest) "Qty" "Unit Retail" "Ext. Retail"
      [.num 10, .str "$5.00", .str "$2.00"] = ⟨10, 5, 2, 50⟩ := by
  have h1 : cellAt (stripHeaders exampleManifest)
      [.num 10, .str "$5.00", .str "$2.00"] "Qty" = .num 10 := by decide
  have h2 : cellAt (stripHeaders exampleManifest)
      [.num 10, .str "$5.00", .str "$2.00"] "Unit Retail" = .str "$5.00" := by decide
  have h3 : cellAt (stripHeaders exampleManifest)
      [.num 10, .str "$5.00", .str "$2.00"] "Ext. Retail" = .str "$2.00" := by decide
  have c2 : coerceClean (.str "$5.00") = 5 :=
    coerce_str_eval _ ⟨false, ([5], some [0, 0]), none⟩ _ (by decide) (by decide)
      (by decide) (by decide) (by norm_num [FloatRep.val, mantissaVal, digitsVal, expVal])
  have c3 : coerceClean (.str "$2.00") = 2 :=
    coerce_str_eval _ ⟨false, ([2], some [0, 0]), none⟩ _ (by decide) (by decide)
      (by decide) (by decide) (by norm_num [FloatRep.val, mantissaVal, digitsVal, expVal])
  simp only [cleanRow, h1, h2, h3, coerce_num_eval, c2, c3]
  norm_num

lemma example_row2_eval :
    cleanRow (stripHeaders exampleManifest) "Qty" "Unit Retail" "Ext. Retail"
      [.num 5, .str "$10.00", .str "$4.00"] = ⟨5, 10, 4, 50⟩ := by
  have h1 : cellAt (stripHeaders exampleManifest)
      [.num 5, .str "$10.00", .str "$4.00"] "Qty" = .num 5 := by decide
  have h2 : cellAt (stripHeaders exampleManifest)
      [.num 5, .str "$10.00", .str "$4.00"] "Unit Retail" = .str "$10.00" := by decide
  have h3 : cellAt (stripHeaders exampleManifest)
      [.num 5, .str "$10.00", .str "$4.00"] "Ext. Retail" = .str "$4.00" := by decide
  have c2 : coerceClean (.str "$10.00") = 10 :=
    coerce_str_eval _ ⟨false, ([1, 0], some [0, 0]), none⟩ _ (by decide) (by decide)
      (by decide) (by decide) (by norm_num [FloatRep.val, mantissaVal, digitsVal, expVal])
  have c3 : coerceClean (.str "$4.00") = 4 :=
    coerce_str_eval _ ⟨false, ([4], some [0, 0]), none⟩ _ (by decide) (by decide)
      (by decide) (by decide) (by norm_num [FloatRep.val, mantissaVal, digitsVal, expVal])
  simp only [cleanRow, h1, h2, h3, coerce_num_eval, c2, c3]
  norm_num

lemma example_cols :
    colQty (stripHeaders exampleManifest) = some "Qty"
    ∧ colRetail (stripHeaders exampleManifest) = some "Unit Retail"
    ∧ colCost (stripHeaders exampleManifest) = some "Ext. Retail" := by
  refine ⟨by decide, by decide, by decide⟩

/-- C1 counterexample: on the spec's end-to-end example the code's
`total_cost` is the plain sum of the cleaned cost column, 2 + 4 = 6, not
the quantity-weighted 10×2 + 5×4 = 40 stated by the example. -/
theorem manifest_example_total_cost_counterexample :
    (load_file "manifest.csv" exampleManifest).total_cost = 6
    ∧ ((6 : ℚ) = 40 → False) := by
  constructor
  · rw [load_file_ok "manifest.csv" exampleManifest "Qty" "Unit Retail" "Ext. Retail"
      example_cols.1 example_cols.2.1 example_cols.2.2]
    have hrows : exampleManifest.rows =
        [[RawCell.num 10, .str "$5.00", .str "$2.00"],
         [RawCell.num 5, .str "$10.00", .str "$4.00"]] := rfl
    rw [hrows]
    simp only [List.map_cons, List.map_nil,
      example_row1_eval, example_row2_eval, List.sum_cons, List.sum_nil]
    norm_num
  · intro h
    norm_num at h

/-- C1 amended: the example file loads with status OK, totalItems 15,
varietyCount 2, totalRetail 100 and totalCost 6 (the plain sum of the
cleaned cost column, per spec section 4.2). -/
theorem manifest_example_aggregates :
    load_file "manifest.csv" exampleManifest =
      { filename := "manifest.csv"
        status := "OK"
        details := ""
        items := 15
        variety := 2
        total_cost := 6
        total_retail := 100
        raw_data := [⟨10, 5, 2, 50⟩, ⟨5, 10, 4, 50⟩] } := by
  rw [load_file_ok "manifest.csv" exampleManifest "Qty" "Unit Retail" "Ext. Retail"
    example_cols.1 example_cols.2.1 example_cols.2.2]
  have hrows : exampleManifest.rows =
      [[RawCell.num 10, .str "$5.00", .str "$2.00"],
       [RawCell.num 5, .str "$10.00", .str "$4.00"]] := rfl
  rw [hrows]
  simp only [List.map_cons, List.map_nil,
    example_row1_eval, example_row2_eval, List.sum_cons, List.sum_nil]
  have hf : (List.filter (fun r => decide (0 < r.qty))
      [(⟨10, 5, 2, 50⟩ : CleanRow), ⟨5, 10, 4, 50⟩]).length = 2 := by
    rw [List.filter_cons, List.filter_cons]
    norm_num
  rw [hf]
  simp only [ManifestSummary.mk.injEq]
  norm_num

/-! ## Claim C5: decimal rendering of a parsed value

Python floats are dyadic rationals, so every `Number` the code can hold
admits a finite decimal rendering `z / 10^k`; `renderDec v k` is that
rendering (the embedding's analogue of `str(v)`), and the round-trip
theorem shows re-normalizing it recovers the same value. -/

lemma good_props : ∀ c ∈ goodChars,
    pyWhitespace c = false ∧ currencySyms.contains c = false ∧ c ≠ '−'
    ∧ (decide (c = 'e') || decide (c = 'E')) = false ∧ c ≠ '(' := by decide

lemma digitChar_mem (d : ℕ) (h : d < 10) : digitChar d ∈ goodChars := by
  interval_cases d <;> decide

lemma digitChar_isDigit (d : ℕ) (h : d < 10) : isDigitCh (digitChar d) = true := by
  interval_cases d <;> decide

lemma digitChar_digVal (d : ℕ) (h : d < 10) : digVal (digitChar d) = d := by
  interval_cases d <;> decide

lemma digit_ne_of_isDigit (c e : Char) (hc : isDigitCh c = true)
    (he : isDigitCh e = false) : c ≠ e := by
  intro h
  rw [h, he] at hc
  exact Bool.noConfusion hc

/-! ### Digit-list values -/

lemma digitsVal_append (ds : List ℕ) (d : ℕ) :
    digitsVal (ds ++ [d]) = 10 * digitsVal ds + d := by
  unfold digitsVal
  rw [List.foldl_concat]

lemma digitsVal_eq_ofDigits (ds : List ℕ) :
    digitsVal ds = Nat.ofDigits 10 ds.reverse := by
  induction ds using List.reverseRecOn with
  | nil => rfl
  | append_singleton ds d ih =>
    rw [digitsVal_append, List.reverse_append]
    simp only [List.reverse_cons, List.reverse_nil, List.nil_append, List.singleton_append,
      Nat.ofDigits_cons, ih]
    ring

lemma digitsVal_natToChars (n : ℕ) :
    digitsVal ((natToChars n).map digVal) = n := by
  have hmap : (natToChars n).map digVal = (Nat.digits 10 n).reverse := by
    unfold natToChars
    rw [List.map_map]
    have : ∀ d ∈ (Nat.digits 10 n).reverse, (digVal ∘ digitChar) d = id d := by
      intro d hd
      have hlt : d < 10 :=
        Nat.digits_lt_base (by norm_num) (List.mem_reverse.mp hd)
      simp [digitChar_digVal d hlt]
    rw [List.map_congr_left this, List.map_id]
  rw [hmap, digitsVal_eq_ofDigits, List.reverse_reverse, Nat.ofDigits_digits]

lemma digitsVal_renderNat (n : ℕ) :
    digitsVal ((renderNat n).map digVal) = n := by
  unfold renderNat
  by_cases h : n = 0
  · subst h; decide
  · rw [if_neg h]; exact digitsVal_natToChars n

lemma digitsVal_replicate_zero (j : ℕ) (ds : List ℕ) :
    digitsVal (List.replicate j 0 ++ ds) = digitsVal ds := by
  induction j with
  | zero => simp
  | succ j ih =>
    rw [List.replicate_succ, List.cons_append]
    unfold digitsVal at ih ⊢
    rw [List.foldl_cons]
    simpa using ih

lemma digitsVal_padDigits (k r : ℕ) :
    digitsVal ((padDigits k r).map digVal) = r := by
  unfold padDigits
  rw [List.map_append, List.map_replicate]
  have h0 : digVal '0' = 0 := by decide
  rw [h0, digitsVal_replicate_zero, digitsVal_natToChars]

/-! ### Membership, heads and lengths of renderings -/

lemma natToChars_digits (n : ℕ) :
    ∀ c ∈ natToChars n, isDigitCh c = true ∧ c ∈ goodChars := by
  intro c hc
  unfold natToChars at hc
  obtain ⟨d, hd, rfl⟩ := List.mem_map.mp hc
  have hlt : d < 10 := Nat.digits_lt_base (by norm_num) (List.mem_reverse.mp hd)
  exact ⟨digitChar_isDigit d hlt, digitChar_mem d hlt⟩

lemma renderNat_digits (n : ℕ) :
    ∀ c ∈ renderNat n, isDigitCh c = true ∧ c ∈ goodChars := by
  intro c hc
  unfold renderNat at hc
  by_cases h : n = 0
  · rw [if_pos h] at hc
    rcases List.mem_singleton.mp hc with rfl
    exact ⟨by decide, by decide⟩
  · rw [if_neg h] at hc
    exact natToChars_digits n c hc

lemma renderNat_ne_nil (n : ℕ) : renderNat n ≠ [] := by
  unfold renderNat
  by_cases h : n = 0
  · rw [if_pos h]; simp
  · rw [if_neg h]
    unfold natToChars
    simp [Nat.digits_eq_nil_iff_eq_zero, h]

lemma renderNat_head (n : ℕ) :
    ∃ c t, renderNat n = c :: t ∧ isDigitCh c = true := by
  obtain ⟨c, t, h⟩ := List.exists_cons_of_ne_nil (renderNat_ne_nil n)
  exact ⟨c, t, h, (renderNat_digits n c (by rw [h]; exact List.mem_cons_self c t)).1⟩

lemma padDigits_digits (k r : ℕ) :
    ∀ c ∈ padDigits k r, isDigitCh c = true ∧ c ∈ goodChars := by
  intro c hc
  unfold padDigits at hc
  rcases List.mem_append.mp hc with hc | hc
  · rcases List.eq_of_mem_replicate hc with rfl
    exact ⟨by decide, by decide⟩
  · exact natToChars_digits r c hc

lemma natToChars_length_le (k r : ℕ) (h : r < 10 ^ k) :
    (natToChars r).length ≤ k := by
  unfold natToChars
  rw [List.length_map, List.length_reverse]
  rcases Nat.eq_zero_or_pos r with hr | hr
  · simp [hr]
  · rw [Nat.digits_len 10 r (by norm_num) (by omega)]
    have := (Nat.lt_pow_iff_log_lt (by norm_num) (by omega)).mp h
    omega

lemma padDigits_length (k r : ℕ) (h : r < 10 ^ k) :
    (padDigits k r).length = k := by
  unfold padDigits
  rw [List.length_append, List.length_replicate]
  have := natToChars_length_le k r h
  omega

lemma renderBody_mem (m k : ℕ) : ∀ c ∈ renderBody m k, c ∈ goodChars := by
  intro c hc
  unfold renderBody at hc
  by_cases hk : k = 0
  · rw [if_pos hk] at hc
    exact (renderNat_digits m c hc).2
  · rw [if_neg hk] at hc
    rcases List.mem_append.mp hc with hc | hc
    · exact (renderNat_digits _ c hc).2
    · rcases List.mem_cons.mp hc with rfl | hc
      · decide
      · exact (padDigits_digits _ _ c hc).2

lemma renderBody_head (m k : ℕ) :
    ∃ c t, renderBody m k = c :: t ∧ isDigitCh c = true := by
  unfold renderBody
  by_cases hk : k = 0
  · rw [if_pos hk]; exact renderNat_head m
  · rw [if_neg hk]
    obtain ⟨c, t, h, hd⟩ := renderNat_head (m / 10 ^ k)
    exact ⟨c, t ++ '.' :: padDigits k (m % 10 ^ k), by rw [h]; rfl, hd⟩

/-! ### The cleaning pipeline fixes decimal renderings -/

lemma dropWhile_of_false {p : Char → Bool} (l : List Char)
    (h : ∀ c ∈ l, p c = false) : l.dropWhile p = l := by
  cases l with
  | nil => rfl
  | cons c t =>
    rw [List.dropWhile_cons, h c (List.mem_cons_self c t)]
    simp

lemma stripList_id (l : List Char) (h : ∀ c ∈ l, pyWhitespace c = false) :
    stripList l = l := by
  unfold stripList
  rw [dropWhile_of_false l h,
    dropWhile_of_false l.reverse (fun c hc => h c (List.mem_reverse.mp hc)),
    List.reverse_reverse]

lemma removeCurrency_id (l : List Char)
    (h : ∀ c ∈ l, currencySyms.contains c = false) : removeCurrency l = l := by
  unfold removeCurrency
  refine List.filter_eq_self.mpr ?_
  intro a ha
  rw [h a ha]
  rfl

lemma replaceMinus_id (l : List Char) (h : ∀ c ∈ l, c ≠ '−') :
    replaceMinus l = l := by
  unfold replaceMinus
  have := List.map_congr_left (l := l)
    (f := fun c => if c = '−' then '-' else c) (g := id)
    (fun a ha => by simp [h a ha])
  rw [this, List.map_id]

lemma clean_steps_id (l : List Char) (h : ∀ c ∈ l, c ∈ goodChars) :
    stripList (replaceMinus (removeCurrency l)) = l := by
  rw [removeCurrency_id l (fun c hc => (good_props c (h c hc)).2.1),
    replaceMinus_id l (fun c hc => (good_props c (h c hc)).2.2.1),
    stripList_id l (fun c hc => (good_props c (h c hc)).1)]

/-! ### Parsing a digit run -/

lemma udAux_digits (l : List Char) (h : ∀ c ∈ l, isDigitCh c = true) :
    udAux l = some (l.map digVal) := by
  induction l with
  | nil => rfl
  | cons c t ih =>
    unfold udAux
    rw [if_pos (h c (List.mem_cons_self c t)),
      ih (fun d hd => h d (List.mem_cons_of_mem c hd))]
    rfl

lemma udigits_digits (l : List Char) (hne : l ≠ [])
    (h : ∀ c ∈ l, isDigitCh c = true) : udigits? l = some (l.map digVal) := by
  cases l with
  | nil => exact absurd rfl hne
  | cons c t =>
    simp only [udigits?]
    rw [if_pos (h c (List.mem_cons_self c t)),
      udAux_digits t (fun d hd => h d (List.mem_cons_of_mem c hd))]
    rfl

/-! ### `splitFirst` on clean input -/

lemma splitFirst_of_false (p : Char → Bool) (l : List Char)
    (h : ∀ c ∈ l, p c = false) : splitFirst p l = (l, none) := by
  induction l with
  | nil => rfl
  | cons c t ih =>
    unfold splitFirst
    rw [h c (List.mem_cons_self c t),
      ih (fun d hd => h d (List.mem_cons_of_mem c hd))]
    simp

lemma splitFirst_mid (p : Char → Bool) (a : List Char) (d : Char) (b : List Char)
    (ha : ∀ c ∈ a, p c = false) (hd : p d = true) :
    splitFirst p (a ++ d :: b) = (a, some b) := by
  induction a with
  | nil =>
    simp only [List.nil_append]
    unfold splitFirst
    rw [hd]
    simp
  | cons c t ih =>
    rw [List.cons_append]
    unfold splitFirst
    rw [ha c (List.mem_cons_self c t),
      ih (fun e he => ha e (List.mem_cons_of_mem c he))]
    simp

/-! ### Mantissa and full-float parses of renderings -/

lemma mantissaParts_digits_only (l : List Char) (hne : l ≠ [])
    (h : ∀ c ∈ l, isDigitCh c = true) :
    mantissaParts l = some (l.map digVal, none) := by
  unfold mantissaParts
  rw [splitFirst_of_false _ l (fun c hc => by
    have := digit_ne_of_isDigit c '.' (h c hc) (by decide)
    simp [this])]
  simp [udigits_digits l hne h]

lemma mantissaParts_int_frac (ip fp : List Char) (hip : ip ≠ []) (hfp : fp ≠ [])
    (hipd : ∀ c ∈ ip, isDigitCh c = true) (hfpd : ∀ c ∈ fp, isDigitCh c = true) :
    mantissaParts (ip ++ '.' :: fp) = some (ip.map digVal, some (fp.map digVal)) := by
  obtain ⟨c, it, rfl⟩ := List.exists_cons_of_ne_nil hip
  obtain ⟨f0, ft, rfl⟩ := List.exists_cons_of_ne_nil hfp
  unfold mantissaParts
  rw [splitFirst_mid _ _ '.' _ (fun e he => by
    have := digit_ne_of_isDigit e '.' (hipd e he) (by decide)
    simp [this]) (by decide)]
  simp [udigits_digits _ (by simp) hipd, udigits_digits _ (by simp) hfpd]

lemma mantissa_renderBody (m k : ℕ) :
    ∃ mp, mantissaParts (renderBody m k) = some mp
      ∧ mantissaVal mp = (m : ℚ) / 10 ^ k := by
  by_cases hk : k = 0
  · subst hk
    refine ⟨((renderNat m).map digVal, none), ?_, ?_⟩
    · unfold renderBody
      rw [if_pos rfl]
      exact mantissaParts_digits_only _ (renderNat_ne_nil m)
        (fun c hc => (renderNat_digits m c hc).1)
    · simp [mantissaVal, digitsVal_renderNat]
  · have hmod : m % 10 ^ k < 10 ^ k := Nat.mod_lt m (by positivity)
    refine ⟨((renderNat (m / 10 ^ k)).map digVal,
        some ((padDigits k (m % 10 ^ k)).map digVal)), ?_, ?_⟩
    · unfold renderBody
      rw [if_neg hk]
      exact mantissaParts_int_frac _ _ (renderNat_ne_nil _)
        (by
          have := padDigits_length k (m % 10 ^ k) hmod
          intro hnil
          rw [hnil] at this
          simp at this
          omega)
        (fun c hc => (renderNat_digits _ c hc).1)
        (fun c hc => (padDigits_digits _ _ c hc).1)
    · simp only [mantissaVal, digitsVal_renderNat, digitsVal_padDigits,
        List.length_map, padDigits_length k (m % 10 ^ k) hmod]
      have h10 : ((10 : ℚ) ^ k) ≠ 0 := by positivity
      have hnm : m / 10 ^ k * 10 ^ k + m % 10 ^ k = m := by
        rw [Nat.mul_comm]
        exact Nat.div_add_mod m (10 ^ k)
      field_simp
      exact_mod_cast hnm

lemma floatRep_renderBody (m k : ℕ) :
    ∃ f, floatRep? (renderBody m k) = some f
      ∧ FloatRep.val f = (m : ℚ) / 10 ^ k := by
  obtain ⟨mp, hmp, hval⟩ := mantissa_renderBody m k
  obtain ⟨c, t, hbody, hcd⟩ := renderBody_head m k
  refine ⟨⟨false, mp, none⟩, ?_, ?_⟩
  · have hsign : signSplit (renderBody m k) = (false, renderBody m k) := by
      rw [hbody]
      show (if c = '+' then ((false : Bool), t)
        else if c = '-' then (true, t) else (false, c :: t)) = (false, c :: t)
      rw [if_neg (digit_ne_of_isDigit c '+' hcd (by decide)),
        if_neg (digit_ne_of_isDigit c '-' hcd (by decide))]
    have hee : splitFirst (fun e => decide (e = 'e') || decide (e = 'E'))
        (renderBody m k) = (renderBody m k, none) :=
      splitFirst_of_false _ _
        (fun e he => (good_props e (renderBody_mem m k e he)).2.2.2.1)
    simp only [floatRep?, hsign, hee, hmp, Option.map_some']
  · simp only [FloatRep.val, expVal, hval]
    norm_num

lemma floatRep_renderNeg (m k : ℕ) :
    ∃ f, floatRep? ('-' :: renderBody m k) = some f
      ∧ FloatRep.val f = -((m : ℚ) / 10 ^ k) := by
  obtain ⟨mp, hmp, hval⟩ := mantissa_renderBody m k
  refine ⟨⟨true, mp, none⟩, ?_, ?_⟩
  · have hsign : signSplit ('-' :: renderBody m k) = (true, renderBody m k) := by
      show (if ('-' : Char) = '+' then ((false : Bool), renderBody m k)
        else if ('-' : Char) = '-' then (true, renderBody m k)
        else (false, '-' :: renderBody m k)) = (true, renderBody m k)
      rw [if_neg (by decide : ¬ ('-' : Char) = '+'), if_pos rfl]
    have hee : splitFirst (fun e => decide (e = 'e') || decide (e = 'E'))
        (renderBody m k) = (renderBody m k, none) :=
      splitFirst_of_false _ _
        (fun e he => (good_props e (renderBody_mem m k e he)).2.2.2.1)
    simp only [floatRep?, hsign, hee, hmp, Option.map_some']
  · simp only [FloatRep.val, expVal, hval]
    norm_num

/-- Normalizing the string form of a list of rendering characters whose
float parse succeeds recovers exactly the parsed value: the cleaning
pipeline leaves such strings untouched. -/
lemma clean_currency_render_list (l : List Char) (f : FloatRep)
    (hgood : ∀ c ∈ l, c ∈ goodChars)
    (hne : l ≠ [])
    (hnb1 : l ≠ ['-'])
    (hnb2 : l ≠ ['-', '-'])
    (hf : floatRep? l = some f) :
    clean_currency (.str (String.mk l)) = .Number f.val := by
  have hdata : (String.mk l).data = l := rfl
  have hstr : strippedOf (String.mk l) = l := by
    unfold strippedOf
    rw [hdata]
    exact stripList_id _ (fun c hc => (good_props c (hgood c hc)).1)
  have hnegflag : negOf (String.mk l) = false := by
    unfold negOf
    rw [hstr]
    obtain ⟨c, t, rfl⟩ := List.exists_cons_of_ne_nil hne
    unfold parenNegL
    have hcne : ¬ ((some c : Option Char) = some '(') := by
      intro h
      injection h with h
      exact (good_props c (hgood c (List.mem_cons_self c t))).2.2.2.2 h
    rw [List.head?_cons, decide_eq_false hcne]
    simp
  have hclean : cleanedOf (String.mk l) = l := by
    unfold cleanedOf
    rw [hnegflag]
    simp only [Bool.false_eq_true, if_false, hstr]
    exact clean_steps_id l hgood
  have h1 : ¬ strippedOf (String.mk l) = [] := by rw [hstr]; exact hne
  have h2 : ¬ (cleanedOf (String.mk l) = [] ∨ cleanedOf (String.mk l) = ['-', '-']
      ∨ cleanedOf (String.mk l) = ['-']) := by
    rw [hclean]
    rintro (h | h | h)
    · exact hne h
    · exact hnb2 h
    · exact hnb1 h
  have h3 : floatRep? (cleanedOf (String.mk l)) = some f := by rw [hclean]; exact hf
  have h := cc_str_number (String.mk l) f h1 h2 h3
  rw [hnegflag] at h
  simp only [clean_currency, h, Bool.false_eq_true, if_false]

/-- C5: the normalizer is idempotent on its `Number` outputs.  Whenever
`clean_currency x = Number v` — every such `v` held by the code is a
Python float, i.e. a rational of the form `z / 10^k` — normalizing the
decimal string rendering of `v` yields `Number v` again. -/
theorem normalize_idempotent_on_numbers (x : RawCell) (v : ℚ) (z : ℤ) (k : ℕ)
    (_hx : clean_currency x = .Number v) (hz : v = (z : ℚ) / 10 ^ k) :
    clean_currency (.str (renderDec v k)) = .Number v := by
  have h10 : ((10 : ℚ) ^ k) ≠ 0 := by positivity
  have hvk : v * 10 ^ k = (z : ℚ) := by rw [hz]; field_simp
  have hnum : (v * 10 ^ k).num = z := by rw [hvk]; exact Rat.num_intCast z
  obtain ⟨c, t, hbody, hcd⟩ := renderBody_head (v * 10 ^ k).num.natAbs k
  by_cases hneg : v < 0
  · have hzneg : z < 0 := by
      have hq : (z : ℚ) < 0 := by
        rw [← hvk]
        exact mul_neg_of_neg_of_pos hneg (by positivity)
      exact_mod_cast hq
    have hmv : (((v * 10 ^ k).num.natAbs : ℕ) : ℚ) = -(z : ℚ) := by
      rw [hnum, Int.cast_natAbs, abs_of_neg hzneg]
      push_cast
      ring
    obtain ⟨f, hf, hfv⟩ := floatRep_renderNeg (v * 10 ^ k).num.natAbs k
    have hrender : renderDec v k =
        String.mk ('-' :: renderBody (v * 10 ^ k).num.natAbs k) := by
      unfold renderDec
      rw [if_pos hneg]
    have hgood : ∀ e ∈ '-' :: renderBody (v * 10 ^ k).num.natAbs k, e ∈ goodChars := by
      intro e he
      rcases List.mem_cons.mp he with rfl | he
      · decide
      · exact renderBody_mem _ k e he
    have hmain := clean_currency_render_list
      ('-' :: renderBody (v * 10 ^ k).num.natAbs k) f hgood (by simp)
      (by
        intro h
        injection h with h1 h2
        exact absurd h2 (by rw [hbody]; simp))
      (by
        intro h
        injection h with h1 h2
        rw [hbody] at h2
        injection h2 with h3 h4
        rw [h3] at hcd
        exact absurd hcd (by decide))
      hf
    rw [hrender, hmain, hfv, hmv, hz]
    ring_nf
  · have hzpos : 0 ≤ z := by
      have hq : 0 ≤ (z : ℚ) := by
        rw [← hvk]
        exact mul_nonneg (not_lt.mp hneg) (by positivity)
      exact_mod_cast hq
    have hmv : (((v * 10 ^ k).num.natAbs : ℕ) : ℚ) = (z : ℚ) := by
      rw [hnum, Int.cast_natAbs, abs_of_nonneg hzpos]
    obtain ⟨f, hf, hfv⟩ := floatRep_renderBody (v * 10 ^ k).num.natAbs k
    have hrender : renderDec v k =
        String.mk (renderBody (v * 10 ^ k).num.natAbs k) := by
      unfold renderDec
      rw [if_neg hneg]
    have hmain := clean_currency_render_list
      (renderBody (v * 10 ^ k).num.natAbs k) f
      (renderBody_mem _ k) (by rw [hbody]; simp)
      (by
        rw [hbody]
        intro h
        injection h with h1 h2
        rw [h1] at hcd
        exact absurd hcd (by decide))
      (by
        rw [hbody]
        intro h
        injection h with h1 h2
        rw [h1] at hcd
        exact absurd hcd (by decide))
      hf
    rw [hrender, hmain, hfv, hmv, hz]

theorem normalize_idempotent_on_numbers_witness :
    clean_currency (.num (123456 / 100)) = .Number (123456 / 100)
    ∧ ((123456 : ℚ) / 100 = ((123456 : ℤ) : ℚ) / 10 ^ 2)
    ∧ clean_currency (.str (renderDec (123456 / 100) 2)) = .Number (123456 / 100) :=
  ⟨rfl, by norm_num,
    normalize_idempotent_on_numbers (.num (123456 / 100)) (123456 / 100) 123456 2
      rfl (by norm_num)⟩
